import Mathlib

/-!
Verification of the `Env` service-registry class (src/index.ts).

The runtime state of an `Env<T>` instance is its private field `m`, a
JavaScript object mapping string keys to service values.  We embed that
object as an association list `List (String × α)` whose keys are unique
(JavaScript objects cannot hold two properties with the same name); the
well-formedness predicate `Wf` records that uniqueness.

The operations are translated line by line from the class:
  * `Env.build`    — `static build = () => new Env({})`
  * `Env.With`    — `with(key, value)` builds `{...this.m, ...{[key]: value}}`:
                     an existing property keeps its position but receives the
                     new value, a fresh property is appended at the end
  * `Env.withLayer`— `withLayer(key, live) = this.with(key, live(this))`
  * `Env.consume`  — `consume(key, live) = new Env({[key]: live(this)})`
  * `Env.get`      — `get(key) = this.m[key]`, `none` playing `undefined`

`Env.withLayerM` / `Env.consumeM` are the same two constructor-invoking
operations with the constructor call embedded monadically (call-by-value:
`live(this)` is evaluated first, then the new object is built), used to
reason about invocation counts (`StateM Nat`) and thrown errors (`Except`).

`heapWith`/`heapWithLayer`/`heapConsume` model object identity: `new Env(...)`
allocates a fresh instance at the end of a heap of instances, and no
operation writes to an existing address.

`sigWith` models the type-level signature produced by the source's return
type `Env<T & Has<K, V>>`: the property type of a key present in both
operands of a TypeScript intersection is the intersection of the two
property types.
-/

set_option autoImplicit false

variable {α : Type} {ε : Type}

/-- Runtime lookup of a property in a JavaScript object embedded as an
association list: `m[key]`, with `none` for `undefined`. -/
def lookupKey : List (String × α) → String → Option α
  | [], _ => none
  | p :: rest, k => if p.1 = k then some p.2 else lookupKey rest k

/-- The spread `{...m, ...{[key]: v}}` on a JavaScript object: an existing
property keeps its position and receives the new value, a fresh property is
appended at the end. -/
def mapWith : List (String × α) → String → α → List (String × α)
  | [], k, v => [(k, v)]
  | p :: rest, k, v => if p.1 = k then (k, v) :: rest else p :: mapWith rest k v

/-- The property names of the embedded object, in order. -/
def keysOf (m : List (String × α)) : List String :=
  m.map Prod.fst

/-- Number of entries carrying a given key. -/
def keyCount : List (String × α) → String → Nat
  | [], _ => 0
  | p :: rest, k => (if p.1 = k then 1 else 0) + keyCount rest k

/-- Invariant of every JavaScript object: property names are unique. -/
def Wf (m : List (String × α)) : Prop :=
  (keysOf m).Nodup

instance (m : List (String × α)) : Decidable (Wf m) :=
  List.nodupDecidable (keysOf m)

/-- `Env<T>`: the class instance, carrying its private map `m`. -/
structure Env (α : Type) : Type where
  m : List (String × α)

/-- `static build = () => new Env({})` -/
def Env.build : Env α :=
  ⟨[]⟩

/-- `with(key, value)`: `new Env({...this.m, ...{[key]: value}})`.
(`with` is a reserved word in Lean, hence the capital.) -/
def Env.With (e : Env α) (key : String) (value : α) : Env α :=
  ⟨mapWith e.m key value⟩

/-- `withLayer(key, live)`: `this.with(key, live(this))`. -/
def Env.withLayer (e : Env α) (key : String) (live : Env α → α) : Env α :=
  e.With key (live e)

/-- `consume(key, live)`: `new Env({[key]: live(this)})`. -/
def Env.consume (e : Env α) (key : String) (live : Env α → α) : Env α :=
  ⟨[(key, live e)]⟩

/-- `get(key)`: `this.m[key]`. -/
def Env.get (e : Env α) (key : String) : Option α :=
  lookupKey e.m key

/-- `withLayer` with the call `live(this)` embedded in a monad of effects:
call-by-value evaluates `live(this)` once, then builds the new object. -/
def Env.withLayerM {mo : Type → Type} [Monad mo] (e : Env α) (key : String)
    (live : Env α → mo α) : mo (Env α) :=
  live e >>= fun v => pure (e.With key v)

/-- `consume` with the call `live(this)` embedded in a monad of effects. -/
def Env.consumeM {mo : Type → Type} [Monad mo] (e : Env α) (key : String)
    (live : Env α → mo α) : mo (Env α) :=
  live e >>= fun v => pure (Env.mk [(key, v)])

/-- Instrument a constructor so that each invocation bumps a counter. -/
def countingLayer (f : Env α → α) : Env α → StateM Nat α :=
  fun env n => (f env, n + 1)

/-- A fragment of TypeScript's type language: enough to state what the
return type `Env<T & Has<K, V>>` declares for a rebound key. -/
inductive Ty : Type where
  | num : Ty
  | str : Ty
  | inter : Ty → Ty → Ty
deriving DecidableEq

/-- The signature (key, property-type) row of `T & Has<K, V>` as TypeScript
computes it: a key present in both operands of an intersection gets the
intersection of the two property types; a fresh key is added. -/
def sigWith : List (String × Ty) → String → Ty → List (String × Ty)
  | [], k, v => [(k, v)]
  | p :: rest, k, v =>
    if p.1 = k then (p.1, Ty.inter p.2 v) :: rest else p :: sigWith rest k v

/-- A heap of `Env` instances; an address is an index. `new Env(...)`
appends a fresh instance. -/
abbrev Heap (α : Type) : Type :=
  List (List (String × α))

/-- Allocate a fresh instance, returning the new heap and its address. -/
def alloc (h : Heap α) (m0 : List (String × α)) : Heap α × Nat :=
  (h ++ [m0], h.length)

/-- The map of the instance stored at an address. -/
def heapFetch (h : Heap α) (a : Nat) : List (String × α) :=
  h.getD a []

/-- `with` acting on the instance at address `a`: allocates the new object. -/
def heapWith (h : Heap α) (a : Nat) (key : String) (v : α) : Heap α × Nat :=
  alloc h (mapWith (heapFetch h a) key v)

/-- `withLayer` acting on the instance at address `a`. -/
def heapWithLayer (h : Heap α) (a : Nat) (key : String)
    (live : List (String × α) → α) : Heap α × Nat :=
  alloc h (mapWith (heapFetch h a) key (live (heapFetch h a)))

/-- `consume` acting on the instance at address `a`. -/
def heapConsume (h : Heap α) (a : Nat) (key : String)
    (live : List (String × α) → α) : Heap α × Nat :=
  alloc h [(key, live (heapFetch h a))]

/-- `get` on the instance at an address. -/
def heapGet (h : Heap α) (a : Nat) (key : String) : Option α :=
  lookupKey (heapFetch h a) key

/-! ### Lookup / spread lemmas -/

theorem lookupKey_mapWith_self (m : List (String × α)) (k : String) (v : α) :
    lookupKey (mapWith m k v) k = some v := by
  induction m with
  | nil => simp [mapWith, lookupKey]
  | cons p rest ih =>
    by_cases hp : p.1 = k
    · simp [mapWith, hp, lookupKey]
    · simp [mapWith, hp, lookupKey, ih]

theorem lookupKey_mapWith_ne (m : List (String × α)) (k k' : String) (v : α)
    (h : k' ≠ k) : lookupKey (mapWith m k v) k' = lookupKey m k' := by
  induction m with
  | nil => simp [mapWith, lookupKey, Ne.symm h]
  | cons p rest ih =>
    by_cases hp : p.1 = k
    · simp [mapWith, hp, lookupKey, Ne.symm h]
    · simp only [mapWith, hp, if_false, lookupKey]
      by_cases hp' : p.1 = k'
      · simp [hp']
      · simp [hp', ih]

/-- C1 helper in `Env` terms. -/
theorem Env.get_with_self (e : Env α) (k : String) (v : α) :
    (e.With k v).get k = some v :=
  lookupKey_mapWith_self e.m k v

theorem Env.get_with_ne (e : Env α) (k k' : String) (v : α) (h : k' ≠ k) :
    (e.With k v).get k' = e.get k' :=
  lookupKey_mapWith_ne e.m k k' v h

/-- **C1.** For every key K and value V, retrieving K from the environment
obtained by binding K to V on the empty environment returns V:
`Env.build().with(K, V).get(K) == V`. -/
theorem get_with_build (k : String) (v : α) :
    ((Env.build).With k v).get k = some v :=
  Env.get_with_self Env.build k v

/-! ### Key-uniqueness invariant -/

theorem mem_keysOf_mapWith (m : List (String × α)) (k s : String) (v : α)
    (h : s ∈ keysOf (mapWith m k v)) : s = k ∨ s ∈ keysOf m := by
  induction m with
  | nil => simpa [mapWith, keysOf] using h
  | cons p rest ih =>
    by_cases hp : p.1 = k
    · simp only [mapWith, hp, if_true, keysOf, List.map_cons, List.mem_cons] at h ⊢
      rcases h with h | h
      · exact Or.inl h
      · exact Or.inr (Or.inr h)
    · simp only [mapWith, hp, if_false, keysOf, List.map_cons, List.mem_cons] at h ⊢
      rcases h with h | h
      · exact Or.inr (Or.inl h)
      · rcases ih h with h' | h'
        · exact Or.inl h'
        · exact Or.inr (Or.inr h')

theorem wf_mapWith (m : List (String × α)) (k : String) (v : α) (h : Wf m) :
    Wf (mapWith m k v) := by
  induction m with
  | nil => simp [mapWith, Wf, keysOf]
  | cons p rest ih =>
    rw [Wf, keysOf, List.map_cons, List.nodup_cons] at h
    obtain ⟨hp1, hrest⟩ := h
    by_cases hp : p.1 = k
    · rw [mapWith, if_pos hp, Wf, keysOf, List.map_cons, List.nodup_cons]
      exact ⟨hp ▸ hp1, hrest⟩
    · rw [mapWith, if_neg hp, Wf, keysOf, List.map_cons, List.nodup_cons]
      refine ⟨fun hmem => ?_, ih hrest⟩
      rcases mem_keysOf_mapWith rest k p.1 v hmem with h' | h'
      · exact hp h'
      · exact hp1 h'

theorem keyCount_of_not_mem (m : List (String × α)) (s : String)
    (h : s ∉ keysOf m) : keyCount m s = 0 := by
  induction m with
  | nil => rfl
  | cons p rest ih =>
    rw [keysOf, List.map_cons, List.mem_cons] at h
    push_neg at h
    rw [keyCount, if_neg (fun hh => h.1 hh.symm), ih h.2]

theorem keyCount_mapWith_self (m : List (String × α)) (k : String) (v : α)
    (h : Wf m) : keyCount (mapWith m k v) k = 1 := by
  induction m with
  | nil => simp [mapWith, keyCount]
  | cons p rest ih =>
    rw [Wf, keysOf, List.map_cons, List.nodup_cons] at h
    obtain ⟨hp1, hrest⟩ := h
    by_cases hp : p.1 = k
    · rw [mapWith, if_pos hp, keyCount, if_pos rfl,
        keyCount_of_not_mem rest k (hp ▸ hp1)]
    · rw [mapWith, if_neg hp, keyCount, if_neg hp, ih hrest]

/-- **C4.** Last write wins on rebind: rebinding the same key yields the
second value on retrieval, and the resulting object holds exactly one entry
for that key. -/
theorem last_write_wins (e : Env α) (k : String) (v1 v2 : α) (h : Wf e.m) :
    ((e.With k v1).With k v2).get k = some v2
    ∧ keyCount ((e.With k v1).With k v2).m k = 1 :=
  ⟨Env.get_with_self (e.With k v1) k v2,
    keyCount_mapWith_self (mapWith e.m k v1) k v2 (wf_mapWith e.m k v1 h)⟩

/-- Witness for C4 at a concrete environment. -/
theorem last_write_wins_witness :
    (((Env.build.With "a" (0 : Nat)).With "k" 1).With "k" 2).get "k" = some 2
    ∧ keyCount (((Env.build.With "a" (0 : Nat)).With "k" 1).With "k" 2).m "k" = 1 :=
  last_write_wins (Env.build.With "a" 0) "k" 1 2 (by decide)

/-- **C7.** Binding is non-destructive with respect to other keys: after
binding two distinct keys, both are retrievable with their values, and every
other key keeps its value from the original environment. -/
theorem bind_frame (e : Env α) (k1 k2 : String) (v1 v2 : α) (hne : k1 ≠ k2) :
    ((e.With k1 v1).With k2 v2).get k1 = some v1
    ∧ ((e.With k1 v1).With k2 v2).get k2 = some v2
    ∧ ∀ k3, k3 ≠ k1 → k3 ≠ k2 →
        ((e.With k1 v1).With k2 v2).get k3 = e.get k3 := by
  refine ⟨?_, Env.get_with_self (e.With k1 v1) k2 v2, ?_⟩
  · rw [Env.get_with_ne (e.With k1 v1) k2 k1 v2 hne]
    exact Env.get_with_self e k1 v1
  · intro k3 h1 h2
    rw [Env.get_with_ne (e.With k1 v1) k2 k3 v2 h2,
      Env.get_with_ne e k1 k3 v1 h1]

/-- Witness for C7 at a concrete environment. -/
theorem bind_frame_witness :
    (((Env.build.With "c" (7 : Nat)).With "a" 1).With "b" 2).get "a" = some 1
    ∧ (((Env.build.With "c" (7 : Nat)).With "a" 1).With "b" 2).get "b" = some 2
    ∧ (((Env.build.With "c" (7 : Nat)).With "a" 1).With "b" 2).get "c"
        = (Env.build.With "c" (7 : Nat)).get "c" := by
  have h := bind_frame (Env.build.With "c" (7 : Nat)) "a" "b" 1 2 (by decide)
  exact ⟨h.1, h.2.1, h.2.2 "c" (by decide) (by decide)⟩

/-- **C8.** Commutativity of disjoint binds: binding two distinct keys in
either order yields environments with identical retrievable contents at
every key. -/
theorem bind_comm (e : Env α) (k1 k2 : String) (v1 v2 : α) (hne : k1 ≠ k2)
    (k : String) :
    ((e.With k1 v1).With k2 v2).get k = ((e.With k2 v2).With k1 v1).get k := by
  by_cases h2 : k = k2
  · subst h2
    rw [Env.get_with_self (e.With k1 v1) k v2,
      Env.get_with_ne (e.With k v2) k1 k v1 (Ne.symm hne),
      Env.get_with_self e k v2]
  · by_cases h1 : k = k1
    · subst h1
      rw [Env.get_with_ne (e.With k v1) k2 k v2 h2,
        Env.get_with_self e k v1,
        Env.get_with_self (e.With k2 v2) k v1]
    · rw [Env.get_with_ne (e.With k1 v1) k2 k v2 h2,
        Env.get_with_ne e k1 k v1 h1,
        Env.get_with_ne (e.With k2 v2) k1 k v1 h1,
        Env.get_with_ne e k2 k v2 h2]

/-- Witness for C8 at a concrete environment and key. -/
theorem bind_comm_witness :
    ((Env.build.With "a" (1 : Nat)).With "b" 2).get "a"
      = ((Env.build.With "b" (2 : Nat)).With "a" 1).get "a" :=
  bind_comm Env.build "a" "b" 1 2 (by decide) "a"

/-- **C10.** `withLayer` is definable from `with`: `withLayer(K, f)` has
exactly the same retrievable contents as `with(K, f(E))` applied to the
constructor's result on the pre-extension environment. -/
theorem withLayer_eq_with (e : Env α) (key : String) (live : Env α → α)
    (k : String) :
    (e.withLayer key live).get k = (e.With key (live e)).get k := rfl

/-! ### Constructor invocation: count, argument, result -/

/-- **C2.** `withLayer(K, f)` invokes the constructor exactly once at bind
time (the counter advances by exactly one), passing the pre-extension
environment E in which K is not yet bound; the result maps K to `f(E)` and
every key retrievable from E keeps its value. -/
theorem withLayer_invokes_once (e : Env α) (key : String) (f : Env α → α)
    (n : Nat) (hkey : e.get key = none) :
    Env.withLayerM e key (countingLayer f) n = (e.With key (f e), n + 1)
    ∧ (e.withLayer key f).get key = some (f e)
    ∧ ∀ k w, e.get k = some w → (e.withLayer key f).get k = some w := by
  refine ⟨rfl, Env.get_with_self e key (f e), ?_⟩
  intro k w hk
  have hkk : k ≠ key := by
    intro h
    rw [h, hkey] at hk
    cases hk
  rw [Env.withLayer, Env.get_with_ne e key k (f e) hkk]
  exact hk

/-- Witness for C2: the spec's example, E = {"a"→1}, f = env ↦ get(env,"a")+1. -/
theorem withLayer_invokes_once_witness :
    Env.withLayerM (Env.build.With "a" (1 : Nat)) "b"
        (countingLayer fun env => (env.get "a").getD 0 + 1) 0
      = ((Env.build.With "a" 1).With "b" 2, 1)
    ∧ ((Env.build.With "a" (1 : Nat)).withLayer "b"
        (fun env => (env.get "a").getD 0 + 1)).get "b" = some 2
    ∧ ((Env.build.With "a" (1 : Nat)).withLayer "b"
        (fun env => (env.get "a").getD 0 + 1)).get "a" = some 1 := by
  have h := withLayer_invokes_once (Env.build.With "a" (1 : Nat)) "b"
    (fun env => (env.get "a").getD 0 + 1) 0 (by decide)
  exact ⟨h.1, h.2.1, h.2.2 "a" 1 (by decide)⟩

/-- **C3.** `consume(K, f)` invokes the constructor exactly once with the
full pre-existing environment E; the result's entry list is exactly the
singleton for K bound to `f(E)`, and no other key is retrievable. -/
theorem consume_reduces_to_singleton (e : Env α) (key : String)
    (f : Env α → α) (n : Nat) :
    Env.consumeM e key (countingLayer f) n = (Env.mk [(key, f e)], n + 1)
    ∧ (e.consume key f).m = [(key, f e)]
    ∧ (e.consume key f).get key = some (f e)
    ∧ ∀ k, k ≠ key → (e.consume key f).get k = none := by
  refine ⟨rfl, rfl, ?_, ?_⟩
  · show lookupKey [(key, f e)] key = some (f e)
    rw [lookupKey, if_pos rfl]
  · intro k hk
    show lookupKey [(key, f e)] k = none
    rw [lookupKey, if_neg (fun h => hk h.symm)]
    rfl

/-- Witness for C3: the spec's example, E = {"a"→1, "x"→99},
f = env ↦ get(env,"a")*2; only "b" is retrievable afterwards. -/
theorem consume_reduces_to_singleton_witness :
    ((Env.build.With "a" (1 : Nat)).With "x" 99).consumeM "b"
        (countingLayer fun env => (env.get "a").getD 0 * 2) 0
      = (Env.mk [("b", 2)], 1)
    ∧ (((Env.build.With "a" (1 : Nat)).With "x" 99).consume "b"
        (fun env => (env.get "a").getD 0 * 2)).get "b" = some 2
    ∧ (((Env.build.With "a" (1 : Nat)).With "x" 99).consume "b"
        (fun env => (env.get "a").getD 0 * 2)).get "a" = none
    ∧ (((Env.build.With "a" (1 : Nat)).With "x" 99).consume "b"
        (fun env => (env.get "a").getD 0 * 2)).get "x" = none := by
  have h := consume_reduces_to_singleton ((Env.build.With "a" (1 : Nat)).With "x" 99)
    "b" (fun env => (env.get "a").getD 0 * 2) 0
  exact ⟨h.1, h.2.2.1, h.2.2.2 "a" (by decide), h.2.2.2 "x" (by decide)⟩

/-! ### Error propagation -/

/-- **C9.** With thrown failures embedded as `Except`: `withLayer` and
`consume` fail exactly when the supplied constructor fails, with the very
same error, and on a successful constructor they return the extended
(resp. singleton) environment — the registry adds no failure of its own. -/
theorem constructor_error_propagates (e : Env α) (key : String)
    (live : Env α → Except ε α) :
    (∀ err : ε,
      (Env.withLayerM e key live = Except.error err ↔ live e = Except.error err)
      ∧ (Env.consumeM e key live = Except.error err ↔ live e = Except.error err))
    ∧ ∀ v : α, live e = Except.ok v →
        Env.withLayerM e key live = Except.ok (e.With key v)
        ∧ Env.consumeM e key live = Except.ok (Env.mk [(key, v)]) := by
  constructor
  · intro err
    cases hlv : live e with
    | error err0 =>
      constructor <;>
        simp [Env.withLayerM, Env.consumeM, hlv, Bind.bind, Except.bind]
    | ok v =>
      constructor <;>
        simp [Env.withLayerM, Env.consumeM, hlv, Bind.bind, Except.bind,
          Pure.pure, Except.pure]
  · intro v hlv
    constructor <;>
      simp [Env.withLayerM, Env.consumeM, hlv, Bind.bind, Except.bind,
        Pure.pure, Except.pure]

/-- Witness for C9 with a succeeding constructor (the `ok` hypothesis
discharged at a concrete input). -/
theorem constructor_error_propagates_witness :
    Env.withLayerM Env.build "k" (fun _ => (Except.ok 5 : Except String Nat))
      = Except.ok (Env.build.With "k" 5)
    ∧ Env.consumeM Env.build "k" (fun _ => (Except.ok 5 : Except String Nat))
      = Except.ok (Env.mk [("k", 5)]) :=
  (constructor_error_propagates Env.build "k"
    (fun _ => (Except.ok 5 : Except String Nat))).2 5 rfl

/-! ### Immutability of existing instances -/

theorem heapFetch_append_sing (h : Heap α) (x : List (String × α)) (a : Nat)
    (ha : a < h.length) : heapFetch (h ++ [x]) a = heapFetch h a := by
  induction h generalizing a with
  | nil => exact absurd ha (Nat.not_lt_zero a)
  | cons y ys ih =>
    cases a with
    | zero => rfl
    | succ a =>
      show heapFetch (ys ++ [x]) a = heapFetch ys a
      exact ih a (Nat.lt_of_succ_lt_succ ha)

/-- **C6.** Immutability: each operation allocates a fresh instance and
leaves every existing instance untouched — after `with`, `withLayer` or
`consume` on the instance at any address, `get` at any pre-existing address
returns exactly what it returned before. -/
theorem ops_do_not_mutate (h : Heap α) (a b : Nat) (key k : String) (v : α)
    (live : List (String × α) → α) (hb : b < h.length) :
    heapGet (heapWith h a key v).1 b k = heapGet h b k
    ∧ heapGet (heapWithLayer h a key live).1 b k = heapGet h b k
    ∧ heapGet (heapConsume h a key live).1 b k = heapGet h b k := by
  refine ⟨?_, ?_, ?_⟩ <;>
    · show lookupKey (heapFetch (_ ++ [_]) b) k = lookupKey (heapFetch h b) k
      rw [heapFetch_append_sing h _ b hb]

/-- Witness for C6: a one-instance heap, observed before and after each
operation. -/
theorem ops_do_not_mutate_witness :
    heapGet (heapWith [[("a", (1 : Nat))]] 0 "b" 2).1 0 "a"
      = heapGet [[("a", (1 : Nat))]] 0 "a"
    ∧ heapGet (heapWithLayer [[("a", (1 : Nat))]] 0 "b" (fun _ => 2)).1 0 "a"
      = heapGet [[("a", (1 : Nat))]] 0 "a"
    ∧ heapGet (heapConsume [[("a", (1 : Nat))]] 0 "b" (fun _ => 2)).1 0 "a"
      = heapGet [[("a", (1 : Nat))]] 0 "a" :=
  ops_do_not_mutate [[("a", (1 : Nat))]] 0 0 "b" "a" 2 (fun _ => 2) (by decide)

/-! ### The declared type of a rebound key -/

theorem lookupKey_sigWith_of_mem (S : List (String × Ty)) (k : String)
    (v t : Ty) (h : lookupKey S k = some t) :
    lookupKey (sigWith S k v) k = some (Ty.inter t v) := by
  induction S with
  | nil => exact absurd h (by simp [lookupKey])
  | cons p rest ih =>
    by_cases hp : p.1 = k
    · rw [lookupKey, if_pos hp] at h
      rw [sigWith, if_pos hp, lookupKey, if_pos hp, Option.some_inj.mp h]
    · rw [lookupKey, if_neg hp] at h
      rw [sigWith, if_neg hp, lookupKey, if_neg hp]
      exact ih h

/-- **C5 counterexample.** Rebinding key "a", declared `number`, with a
`string` value: the source's return type `Env<T & Has<K, V>>` declares
`number & string` for "a" — an intersection merge — not exactly the new
type `string`, so the claimed type override does not hold. -/
theorem rebind_type_not_override :
    lookupKey (sigWith [("a", Ty.num)] "a" Ty.str) "a"
      = some (Ty.inter Ty.num Ty.str)
    ∧ lookupKey (sigWith [("a", Ty.num)] "a" Ty.str) "a" ≠ some Ty.str := by
  decide

/-- **C5 amended.** For a key K already declared with type T in the
signature, binding K with a value of type V makes the declared type for K
the intersection `T & V` (a merge of old and new), while the runtime entry
for K is replaced with the new value. -/
theorem rebind_type_intersects (S : List (String × Ty)) (k : String)
    (v t : Ty) (hS : lookupKey S k = some t) (e : Env α) (w : α) :
    lookupKey (sigWith S k v) k = some (Ty.inter t v)
    ∧ (e.With k w).get k = some w :=
  ⟨lookupKey_sigWith_of_mem S k v t hS, Env.get_with_self e k w⟩

/-- Witness for the amended C5 at a concrete signature and environment. -/
theorem rebind_type_intersects_witness :
    lookupKey (sigWith [("a", Ty.num)] "a" Ty.str) "a"
      = some (Ty.inter Ty.num Ty.str)
    ∧ ((Env.build.With "a" (1 : Nat)).With "a" 2).get "a" = some 2 :=
  rebind_type_intersects [("a", Ty.num)] "a" Ty.str Ty.num (by decide)
    (Env.build.With "a" 1) 2
